import Mathlib

/-!
Verification of the classification-pipeline notebook
(src/Tutorials/Tutorial03/Notebooks/Classification_sol.ipynb).

The notebook is a linear sequence of scikit-learn library calls: a
train/test split, a MinMax rescaling, a standardization, classifier
fitting, prediction and accuracy scoring, plus a three-level grade
bucketing used as the target label of the exercise dataset.  The
library internals are not part of this repository, so the operations
the notebook calls are modelled here from their documented behaviour
as the specification records it; the data flow between the calls
(which matrix each scaler is fitted on and applied to, in which order
the cells run) is taken directly from the notebook cells.

All numeric feature values are modelled as rationals except for the
standardization step, which divides by a square root and is therefore
modelled over the reals.
-/

namespace Tutorial03

/-- Modelled from the spec: the fitted state of a MinMaxScaler on one
feature column consists of the column minimum and maximum observed at
fit time (sklearn data_min_ / data_max_). -/
structure MinMaxParams where
  dataMin : ℚ
  dataMax : ℚ
deriving DecidableEq

/-- Minimum of a feature column (0 on the empty column, which the fitted
scalers never see). -/
def colMin {α : Type} [LinearOrder α] [Zero α] : List α → α
  | [] => 0
  | [x] => x
  | x :: y :: t => min x (colMin (y :: t))

/-- Maximum of a feature column (0 on the empty column). -/
def colMax {α : Type} [LinearOrder α] [Zero α] : List α → α
  | [] => 0
  | [x] => x
  | x :: y :: t => max x (colMax (y :: t))

/-- Modelled from the spec: fitting a MinMaxScaler on a column records
its minimum and maximum.  Fitting reads only the column it is given. -/
def minMaxFit (col : List ℚ) : MinMaxParams :=
  ⟨colMin col, colMax col⟩

/-- Modelled from the spec: the MinMaxScaler transform with
feature_range=(-1,1) sends v to (v - min) / (max - min) * 2 - 1,
using the min and max recorded at fit time. -/
def mmScale (p : MinMaxParams) (v : ℚ) : ℚ :=
  (v - p.dataMin) / (p.dataMax - p.dataMin) * 2 - 1

/-- Transforming a column applies the fitted scaling to every entry. -/
def minMaxTransform (p : MinMaxParams) (col : List ℚ) : List ℚ :=
  col.map (mmScale p)

/-- Notebook cell-9: fit the MinMaxScaler on the training column only,
then transform the training column and the test column with the same
fitted parameters.  Returns (fitted params, scaled train, scaled test). -/
def cell9 (xtrain xtest : List ℚ) : MinMaxParams × List ℚ × List ℚ :=
  let p := minMaxFit xtrain
  (p, minMaxTransform p xtrain, minMaxTransform p xtest)

theorem colMin_le {α : Type} [LinearOrder α] [Zero α] (l : List α) :
    ∀ x ∈ l, colMin l ≤ x := by
  induction l with
  | nil => intro x hx; cases hx
  | cons a t ih =>
    intro x hx
    cases t with
    | nil =>
      rcases List.mem_cons.mp hx with h | h
      · simp [colMin, h]
      · cases h
    | cons b t2 =>
      rcases List.mem_cons.mp hx with h | h
      · subst h; exact min_le_left _ _
      · exact le_trans (min_le_right _ _) (ih x h)

theorem le_colMax {α : Type} [LinearOrder α] [Zero α] (l : List α) :
    ∀ x ∈ l, x ≤ colMax l := by
  induction l with
  | nil => intro x hx; cases hx
  | cons a t ih =>
    intro x hx
    cases t with
    | nil =>
      rcases List.mem_cons.mp hx with h | h
      · simp [colMax, h]
      · cases h
    | cons b t2 =>
      rcases List.mem_cons.mp hx with h | h
      · subst h; exact le_max_left _ _
      · exact le_trans (ih x h) (le_max_right _ _)

/-- Modelled from the spec: the seeded pseudo-random number generator
behind the deterministic split, modelled as a linear congruential
generator stepping the seed. -/
def lcgNext (s : Nat) : Nat :=
  (1103515245 * s + 12345) % 2147483648

/-- Fisher-Yates selection shuffle driven by the seeded generator: at
each step draw the element at position seed mod length and recurse on
the remainder with the stepped seed.  Fuel bounds the recursion. -/
def shuffleGo : Nat → Nat → List Nat → List Nat
  | 0, _, xs => xs
  | fuel + 1, s, xs =>
    match xs with
    | [] => []
    | a :: t =>
      let i := s % (a :: t).length
      (a :: t).getD i 0 ::
        shuffleGo fuel (lcgNext s) ((a :: t).take i ++ (a :: t).drop (i + 1))

/-- Modelled from the spec: the deterministic seeded permutation of the
n row indices that train_test_split uses. -/
def shuffledIdx (seed n : Nat) : List Nat :=
  shuffleGo n seed (List.range n)

/-- Modelled from the spec: the number of test rows chosen by
test_size=0.2, the ceiling of n/5 in exact arithmetic. -/
def testCount (n : Nat) : Nat := (n + 4) / 5

/-- Row indices assigned to the test partition. -/
def testIdx (seed n : Nat) : List Nat :=
  (shuffledIdx seed n).take (testCount n)

/-- Row indices assigned to the training partition. -/
def trainIdx (seed n : Nat) : List Nat :=
  (shuffledIdx seed n).drop (testCount n)

/-- Row selection: gather the rows of a table at the given indices. -/
def selectRows {α : Type} [Inhabited α] (rows : List α) (idx : List Nat) :
    List α :=
  idx.map (fun i => rows.getD i default)

/-- Result of train_test_split as used in cell-6 and cell-47. -/
structure SplitResult (α β : Type) where
  XTrain : List α
  XTest : List α
  yTrain : List β
  yTest : List β

/-- Modelled from the spec: train_test_split(X, y, test_size=0.2,
random_state=seed) — deterministically shuffle the row indices with
the seeded generator, assign the first ceil(n/5) shuffled indices to
the test partition and the rest to the training partition, and select
those rows from X and y. -/
def train_test_split {α β : Type} [Inhabited α] [Inhabited β]
    (X : List α) (y : List β) (seed : Nat) : SplitResult α β :=
  let n := X.length
  { XTrain := selectRows X (trainIdx seed n)
    XTest := selectRows X (testIdx seed n)
    yTrain := selectRows y (trainIdx seed n)
    yTest := selectRows y (testIdx seed n) }

theorem perm_select (l : List Nat) (i : Nat) (hi : i < l.length) :
    (l.getD i 0 :: (l.take i ++ l.drop (i + 1))).Perm l := by
  have hget : l.getD i 0 = l.get ⟨i, hi⟩ := by
    rw [List.getD_eq_getElem?_getD, List.getElem?_eq_getElem hi]; rfl
  have hsplit : l.take i ++ l.get ⟨i, hi⟩ :: l.drop (i + 1) = l := by
    rw [List.get_eq_getElem, List.getElem_cons_drop]
    exact List.take_append_drop _ _
  rw [hget]
  conv_rhs => rw [← hsplit]
  exact List.perm_middle.symm

theorem shuffleGo_perm (fuel : Nat) :
    ∀ (s : Nat) (xs : List Nat), (shuffleGo fuel s xs).Perm xs := by
  induction fuel with
  | zero => intro s xs; simp [shuffleGo]
  | succ m ih =>
    intro s xs
    cases xs with
    | nil => simp [shuffleGo]
    | cons a t =>
      have hi : s % (a :: t).length < (a :: t).length :=
        Nat.mod_lt _ (by simp)
      simp only [shuffleGo]
      exact List.Perm.trans (List.Perm.cons _ (ih _ _))
        (perm_select (a :: t) _ hi)

theorem shuffledIdx_perm (seed n : Nat) :
    (shuffledIdx seed n).Perm (List.range n) :=
  shuffleGo_perm n seed (List.range n)

theorem shuffledIdx_nodup (seed n : Nat) : (shuffledIdx seed n).Nodup :=
  ((shuffledIdx_perm seed n).nodup_iff).mpr (List.nodup_range n)

theorem shuffledIdx_length (seed n : Nat) :
    (shuffledIdx seed n).length = n := by
  have := (shuffledIdx_perm seed n).length_eq
  simpa using this

theorem testCount_le (n : Nat) : testCount n ≤ n := by
  unfold testCount; omega

theorem colMin_mem {α : Type} [LinearOrder α] [Zero α] :
    ∀ (l : List α), l ≠ [] → colMin l ∈ l := by
  intro l
  induction l with
  | nil => intro h; exact absurd rfl h
  | cons a t ih =>
    intro _
    cases t with
    | nil => simp [colMin]
    | cons b t2 =>
      rcases le_total a (colMin (b :: t2)) with h | h
      · rw [show colMin (a :: b :: t2) = min a (colMin (b :: t2)) from rfl,
          min_eq_left h]
        exact List.mem_cons_self a _
      · rw [show colMin (a :: b :: t2) = min a (colMin (b :: t2)) from rfl,
          min_eq_right h]
        exact List.mem_cons_of_mem a (ih (by simp))

theorem colMax_mem {α : Type} [LinearOrder α] [Zero α] :
    ∀ (l : List α), l ≠ [] → colMax l ∈ l := by
  intro l
  induction l with
  | nil => intro h; exact absurd rfl h
  | cons a t ih =>
    intro _
    cases t with
    | nil => simp [colMax]
    | cons b t2 =>
      rcases le_total a (colMax (b :: t2)) with h | h
      · rw [show colMax (a :: b :: t2) = max a (colMax (b :: t2)) from rfl,
          max_eq_right h]
        exact List.mem_cons_of_mem a (ih (by simp))
      · rw [show colMax (a :: b :: t2) = max a (colMax (b :: t2)) from rfl,
          max_eq_left h]
        exact List.mem_cons_self a _

/-- The target label of the exercise dataset (cell-37): a student score
is bucketed into Low, Middle or High. -/
inductive GradeClass where
  | Low : GradeClass
  | Middle : GradeClass
  | High : GradeClass
deriving DecidableEq

/-- Modelled from the spec: the class-boundary definition of cell-37 —
scores 0 to 69 are Low, 70 to 89 are Middle, 90 to 100 are High. -/
def classOf (score : Nat) : GradeClass :=
  if score ≤ 69 then GradeClass.Low
  else if score ≤ 89 then GradeClass.Middle
  else GradeClass.High

/-- C3: on a training column whose maximum strictly exceeds its minimum,
the MinMaxScaler fitted on that column with feature_range=(-1,1) maps
the column minimum to -1, the column maximum to 1, and every entry of
the transformed training column lies within [-1, 1]. -/
theorem minmax_train_range (col : List ℚ) (h : colMin col < colMax col) :
    mmScale (minMaxFit col) (colMin col) = -1 ∧
    mmScale (minMaxFit col) (colMax col) = 1 ∧
    ∀ w ∈ minMaxTransform (minMaxFit col) col, -1 ≤ w ∧ w ≤ 1 := by
  have hne : colMax col - colMin col ≠ 0 := by
    have := sub_pos.mpr h
    exact ne_of_gt this
  refine ⟨?_, ?_, ?_⟩
  · simp [mmScale, minMaxFit]
  · simp only [mmScale, minMaxFit]
    field_simp
    norm_num
  · intro w hw
    rcases List.mem_map.mp hw with ⟨v, hv, rfl⟩
    have hmin : colMin col ≤ v := colMin_le col v hv
    have hmax : v ≤ colMax col := le_colMax col v hv
    have hpos : (0:ℚ) < colMax col - colMin col := sub_pos.mpr h
    have h0 : (0:ℚ) ≤ (v - colMin col) / (colMax col - colMin col) :=
      div_nonneg (by linarith) (le_of_lt hpos)
    have h1 : (v - colMin col) / (colMax col - colMin col) ≤ 1 :=
      (div_le_one hpos).mpr (by linarith)
    constructor
    · simp only [mmScale, minMaxFit]
      nlinarith
    · simp only [mmScale, minMaxFit]
      nlinarith

/-- Witness for minmax_train_range at the concrete column [0, 1, 3]. -/
theorem minmax_train_range_witness :
    colMin [(0:ℚ), 1, 3] < colMax [(0:ℚ), 1, 3] ∧
    (mmScale (minMaxFit [(0:ℚ), 1, 3]) (colMin [(0:ℚ), 1, 3]) = -1 ∧
     mmScale (minMaxFit [(0:ℚ), 1, 3]) (colMax [(0:ℚ), 1, 3]) = 1 ∧
     ∀ w ∈ minMaxTransform (minMaxFit [(0:ℚ), 1, 3]) [(0:ℚ), 1, 3],
       -1 ≤ w ∧ w ≤ 1) :=
  ⟨by decide, minmax_train_range [(0:ℚ), 1, 3] (by decide)⟩

/-- C10: the [-1,1] guarantee is a training-set property only — there is
a training column (with max strictly above min) and a test value that
the fitted scaler maps strictly outside [-1, 1]. -/
theorem minmax_test_escape :
    ∃ (train : List ℚ) (v : ℚ),
      colMin train < colMax train ∧
      1 < mmScale (minMaxFit train) v := by
  refine ⟨[0, 1], 2, by decide, by norm_num [mmScale, minMaxFit, colMin, colMax]⟩

/-- C2 (amended): train_test_split with test_size=0.2 partitions the n
row indices — the test and train index lists are disjoint, have no
duplicates, and together contain exactly the indices below n; the test
partition holds ceil(n/5) rows and the train partition the remaining
n - ceil(n/5) (exactly 20 and 80 percent when 5 divides n). -/
theorem split_partition (seed n : Nat) :
    (∀ i ∈ testIdx seed n, i ∉ trainIdx seed n) ∧
    (∀ i, i < n ↔ (i ∈ testIdx seed n ∨ i ∈ trainIdx seed n)) ∧
    (testIdx seed n).Nodup ∧ (trainIdx seed n).Nodup ∧
    (testIdx seed n).length = (n + 4) / 5 ∧
    (trainIdx seed n).length = n - (n + 4) / 5 := by
  have happ : testIdx seed n ++ trainIdx seed n = shuffledIdx seed n := by
    rw [testIdx, trainIdx]
    exact List.take_append_drop _ _
  have hnd2 : (testIdx seed n ++ trainIdx seed n).Nodup := by
    rw [happ]; exact shuffledIdx_nodup seed n
  rcases List.nodup_append.mp hnd2 with ⟨ht, htr, hdisj⟩
  refine ⟨fun i hi => hdisj hi, ?_, ht, htr, ?_, ?_⟩
  · intro i
    have hm : i ∈ List.range n ↔ i ∈ testIdx seed n ++ trainIdx seed n := by
      rw [happ]
      exact ((shuffledIdx_perm seed n).mem_iff).symm
    rw [List.mem_append] at hm
    rw [← hm]
    exact (List.mem_range).symm
  · rw [testIdx, List.length_take, shuffledIdx_length]
    unfold testCount
    omega
  · rw [trainIdx, List.length_drop, shuffledIdx_length]
    rfl

/-- C6: the split is deterministic under the fixed seed — two runs of
train_test_split on the same X and y with random_state=0 return
identical train and test partitions for both X and y. -/
theorem split_deterministic {α β : Type} [Inhabited α] [Inhabited β]
    (X1 X2 : List α) (y1 y2 : List β) (h1 : X1 = X2) (h2 : y1 = y2) :
    train_test_split X1 y1 0 = train_test_split X2 y2 0 := by
  subst h1; subst h2; rfl

/-- Witness for split_deterministic on a concrete 5-row dataset. -/
theorem split_deterministic_witness :
    ([10, 20, 30, 40, 50] : List Nat) = [10, 20, 30, 40, 50] ∧
    ([1, 0, 1, 0, 1] : List Nat) = [1, 0, 1, 0, 1] ∧
    train_test_split ([10, 20, 30, 40, 50] : List Nat)
        ([1, 0, 1, 0, 1] : List Nat) 0 =
      train_test_split [10, 20, 30, 40, 50] [1, 0, 1, 0, 1] 0 :=
  ⟨rfl, rfl,
    split_deterministic [10, 20, 30, 40, 50] [10, 20, 30, 40, 50]
      [1, 0, 1, 0, 1] [1, 0, 1, 0, 1] rfl rfl⟩

/-- Counterexample to C2 as stated: on a 3-row dataset the test
partition produced by the split does not hold 20 percent of the rows
(no whole number of rows is 20 percent of 3: the test partition has 1
row and 1 * 5 is not 3). -/
theorem split_partition_counterexample :
    ¬ ((testIdx 0 3).length * 5 = 3) := by decide

/-- C4: the bucketing of cell-37 is total on scores 0..100 and the three
buckets are exactly the intervals Low = [0,69], Middle = [70,89],
High = [90,100]; the intervals are pairwise disjoint and cover [0,100]. -/
theorem classOf_buckets (s : Nat) (hs : s ≤ 100) :
    (classOf s = GradeClass.Low ↔ s ≤ 69) ∧
    (classOf s = GradeClass.Middle ↔ 70 ≤ s ∧ s ≤ 89) ∧
    (classOf s = GradeClass.High ↔ 90 ≤ s ∧ s ≤ 100) := by
  unfold classOf
  split_ifs with h1 h2 <;>
    refine ⟨?_, ?_, ?_⟩ <;> simp_all <;> omega

/-- Witness for classOf_buckets at the concrete score 85. -/
theorem classOf_buckets_witness :
    85 ≤ 100 ∧
    ((classOf 85 = GradeClass.Low ↔ 85 ≤ 69) ∧
     (classOf 85 = GradeClass.Middle ↔ 70 ≤ 85 ∧ 85 ≤ 89) ∧
     (classOf 85 = GradeClass.High ↔ 90 ≤ 85 ∧ 85 ≤ 100)) :=
  ⟨by decide, classOf_buckets 85 (by decide)⟩

/-- Modelled from the spec: a fitted classifier as opaque parameter
state; what the notebook observes of it is its prediction function and
its class-probability function. -/
structure FittedModel (I L : Type) where
  predictFn : I → L
  probaFn : I → List ℚ

/-- Modelled from the spec: accuracy as documented for the score
method — the mean over samples of the 0/1 indicator that the predicted
label equals the true label. -/
def accuracy_score {L : Type} [DecidableEq L]
    (yTrue yPred : List L) : ℚ :=
  ((yTrue.zip yPred).map (fun q => if q.1 = q.2 then (1 : ℚ) else 0)).sum /
    (yTrue.length : ℚ)

/-- Modelled from the spec: classifier.score(X, y) returns the mean
accuracy of classifier.predict(X) against y. -/
def score {I L : Type} [DecidableEq L]
    (m : FittedModel I L) (X : List I) (y : List L) : ℚ :=
  accuracy_score y (X.map m.predictFn)

/-- Number of row indices at which the predicted label agrees with the
true label (stated over positions, as the claim phrases it). -/
def matchCount {L : Type} [DecidableEq L] [Inhabited L]
    (ps ys : List L) : Nat :=
  (List.range ys.length).countP
    (fun i => decide (ps.getD i default = ys.getD i default))

theorem matchCount_cons {L : Type} [DecidableEq L] [Inhabited L]
    (p a : L) (ps ys : List L) :
    matchCount (p :: ps) (a :: ys) =
      (if p = a then 1 else 0) + matchCount ps ys := by
  by_cases h : p = a <;>
    simp [matchCount, List.range_succ_eq_map, List.countP_cons,
      List.countP_map, Function.comp_def, List.getD_cons_succ,
      List.getD_cons_zero, h, Nat.add_comm]

theorem zip_ind_sum {L : Type} [DecidableEq L] [Inhabited L] :
    ∀ (ys ps : List L), ys.length = ps.length →
      ((ys.zip ps).map (fun q => if q.1 = q.2 then (1 : ℚ) else 0)).sum =
        (matchCount ps ys : ℚ) := by
  intro ys
  induction ys with
  | nil => intro ps h; simp [matchCount]
  | cons a ys ih =>
    intro ps h
    cases ps with
    | nil => simp at h
    | cons p ps =>
      have hlen : ys.length = ps.length := by simpa using h
      rw [List.zip_cons_cons, List.map_cons, List.sum_cons,
        matchCount_cons, ih ps hlen]
      push_cast
      by_cases hap : a = p
      · subst hap; simp
      · have hpa : ¬ p = a := fun hh => hap hh.symm
        simp [hap, hpa]

/-- C5: score(X, y) is the mean accuracy — for a dataset with n > 0
rows and labels of matching length, the score equals the number of
indices at which the prediction agrees with the true label, divided
by n. -/
theorem score_mean_accuracy {I L : Type} [DecidableEq L] [Inhabited L]
    (m : FittedModel I L) (X : List I) (y : List L)
    (hlen : y.length = X.length) (_hn : 0 < X.length) :
    score m X y = (matchCount (X.map m.predictFn) y : ℚ) / (X.length : ℚ) := by
  unfold score accuracy_score
  rw [zip_ind_sum y (X.map m.predictFn) (by simpa using hlen), hlen]

/-- Witness for score_mean_accuracy: a parity classifier on the 3-row
dataset X = [1,2,3] with labels y = [1,0,0]. -/
theorem score_mean_accuracy_witness :
    ([1, 0, 0] : List Nat).length = ([1, 2, 3] : List Nat).length ∧
    0 < ([1, 2, 3] : List Nat).length ∧
    score (FittedModel.mk (fun x => x % 2) (fun _ => []))
        ([1, 2, 3] : List Nat) ([1, 0, 0] : List Nat) =
      (matchCount (([1, 2, 3] : List Nat).map (fun x => x % 2))
          ([1, 0, 0] : List Nat) : ℚ) /
        ((([1, 2, 3] : List Nat).length : Nat) : ℚ) :=
  ⟨rfl, by decide,
    score_mean_accuracy (FittedModel.mk (fun x => x % 2) (fun _ => []))
      [1, 2, 3] [1, 0, 0] rfl (by decide)⟩

/-- Modelled from the spec: predict returns the predicted labels for X
and hands the fitted parameter state back exactly as received. -/
def predictCall {I L : Type} (m : FittedModel I L) (X : List I) :
    List L × FittedModel I L :=
  (X.map m.predictFn, m)

/-- Modelled from the spec: predict_proba returns per-row class
probabilities and hands the fitted state back exactly as received. -/
def predictProbaCall {I L : Type} (m : FittedModel I L) (X : List I) :
    List (List ℚ) × FittedModel I L :=
  (X.map m.probaFn, m)

/-- Modelled from the spec: score returns the mean accuracy and hands
the fitted state back exactly as received. -/
def scoreCall {I L : Type} [DecidableEq L]
    (m : FittedModel I L) (X : List I) (y : List L) :
    ℚ × FittedModel I L :=
  (score m X y, m)

/-- Modelled from the spec: fit produces a fresh fitted parameter state
from the training data via the library's fitting routine. -/
def fitCall {I L : Type} (algo : List I → List L → FittedModel I L)
    (X : List I) (y : List L) : FittedModel I L :=
  algo X y

/-- C7: a fitted model is read-only after fitting — predict,
predict_proba and score each return a result together with a parameter
state identical to the one they were given; only fitCall constructs a
new state. -/
theorem predict_frame {I L : Type} [DecidableEq L]
    (m : FittedModel I L) (X : List I) (y : List L) :
    (predictCall m X).2 = m ∧
    (predictProbaCall m X).2 = m ∧
    (scoreCall m X y).2 = m :=
  ⟨rfl, rfl, rfl⟩

/-- Execution environment of the exercise pipeline: whether the CSV
file at the relative path exists, and its parsed rows when it does. -/
structure Env where
  hasFile : Bool
  rows : List (List ℚ)

/-- Errors surfaced by the underlying library, propagated verbatim. -/
inductive PipelineError where
  | fileNotFound : String → PipelineError
deriving DecidableEq

/-- Variables the notebook has bound at a given point of execution. -/
structure NotebookState where
  data : Option (List (List ℚ))
  modelFitted : Bool
deriving DecidableEq

/-- Modelled from the spec: pd.read_csv in cell-36 — loads the rows
when the file exists and otherwise raises the library's file-not-found
error, with no recovery authored in the notebook. -/
def readCsvStep (env : Env) (s : NotebookState) :
    Except PipelineError NotebookState :=
  if env.hasFile then Except.ok { s with data := some env.rows }
  else Except.error (PipelineError.fileNotFound "../Data/studentgrades.csv")

/-- Sequential cell execution: run each step in order; a failing step
aborts the run, surfacing the error together with the state exactly as
it was before the failing call. -/
def runSteps :
    List (NotebookState → Except PipelineError NotebookState) →
      NotebookState → Except (PipelineError × NotebookState) NotebookState
  | [], s => Except.ok s
  | st :: rest, s =>
    match st s with
    | Except.ok s2 => runSteps rest s2
    | Except.error e => Except.error (e, s)

/-- C8: no error recovery is authored — when the CSV file is missing,
the pipeline surfaces exactly the library's file-not-found error, no
subsequent step executes (the result is the same whatever steps
follow), and the state established before the failing call is returned
unchanged alongside the error. -/
theorem error_propagation (env : Env)
    (rest : List (NotebookState → Except PipelineError NotebookState))
    (s : NotebookState) (h : env.hasFile = false) :
    runSteps (readCsvStep env :: rest) s =
      Except.error
        (PipelineError.fileNotFound "../Data/studentgrades.csv", s) := by
  simp [runSteps, readCsvStep, h]

/-- Witness for error_propagation: a concrete environment without the
file and an empty initial state. -/
theorem error_propagation_witness :
    (Env.mk false []).hasFile = false ∧
    runSteps [readCsvStep (Env.mk false [])] (NotebookState.mk none false) =
      Except.error
        (PipelineError.fileNotFound "../Data/studentgrades.csv",
          NotebookState.mk none false) :=
  ⟨rfl, error_propagation (Env.mk false []) [] (NotebookState.mk none false) rfl⟩

/-- Mean of a feature column, as the standardization step computes it.
The standardization divides by a square root, so this part of the
pipeline is modelled over the reals. -/
noncomputable def meanR (xs : List ℝ) : ℝ :=
  xs.sum / (xs.length : ℝ)

/-- Population variance of a feature column (the scaler's var_). -/
noncomputable def varR (xs : List ℝ) : ℝ :=
  ((xs.map (fun x => (x - meanR xs) ^ 2)).sum) / (xs.length : ℝ)

/-- Modelled from the spec: the fitted state of a StandardScaler on one
column is its mean and variance at fit time (sklearn mean_ / var_). -/
structure StdParams where
  meanP : ℝ
  varP : ℝ

/-- Fitting a StandardScaler records the column mean and variance. -/
noncomputable def stdFit (xs : List ℝ) : StdParams :=
  ⟨meanR xs, varR xs⟩

/-- Modelled from the spec: the StandardScaler transform sends v to
(v - mean) / sqrt(var), using the statistics recorded at fit time. -/
noncomputable def stdScale (p : StdParams) (v : ℝ) : ℝ :=
  (v - p.meanP) / Real.sqrt p.varP

/-- Transforming a column standardizes every entry. -/
noncomputable def stdTransform (p : StdParams) (xs : List ℝ) : List ℝ :=
  xs.map (stdScale p)

/-- Cell-9's MinMax rescaling of the training column, over the reals:
fit on the column itself and transform it (the state of X_train after
cell-9, which cell-12 then standardizes). -/
noncomputable def cell9TrainR (xs : List ℝ) : List ℝ :=
  xs.map (fun v => (v - colMin xs) / (colMax xs - colMin xs) * 2 - 1)

/-- Notebook cell-12: fit the StandardScaler on the training column
only, then transform the training column and the test column with the
same fitted statistics.  Returns (fitted params, scaled train, scaled
test). -/
noncomputable def cell12 (xtrain xtest : List ℝ) :
    StdParams × List ℝ × List ℝ :=
  let p := stdFit xtrain
  (p, stdTransform p xtrain, stdTransform p xtest)

/-- Notebook cell-49: the exercise repeats cell-12's pattern — a
StandardScaler fitted on the exercise X_train only, then applied
unchanged to both partitions. -/
noncomputable def cell49 (xtrain xtest : List ℝ) :
    StdParams × List ℝ × List ℝ :=
  let sc := stdFit xtrain
  (sc, stdTransform sc xtrain, stdTransform sc xtest)

/-- C1: no-leakage noninterference in every scaling step of the
notebook — the cell-9 MinMaxScaler and the cell-12 and cell-49
StandardScalers are each fitted on X_train only, so in each step the
fitted scaler parameters and the transformed training column depend on
X_train alone: two runs agreeing on X_train but differing in X_test
produce identical fitted state and identical scaled training data, and
in each step the very same fitted parameters are applied unchanged to
both partitions. -/
theorem scaling_noninterference (xtrain xtest1 xtest2 : List ℚ)
    (strain stest1 stest2 : List ℝ) :
    ((cell9 xtrain xtest1).1 = (cell9 xtrain xtest2).1 ∧
     (cell9 xtrain xtest1).2.1 = (cell9 xtrain xtest2).2.1 ∧
     (cell9 xtrain xtest1).2.1 = minMaxTransform (minMaxFit xtrain) xtrain ∧
     (cell9 xtrain xtest1).2.2 = minMaxTransform (minMaxFit xtrain) xtest1 ∧
     (cell9 xtrain xtest2).2.2 = minMaxTransform (minMaxFit xtrain) xtest2) ∧
    ((cell12 strain stest1).1 = (cell12 strain stest2).1 ∧
     (cell12 strain stest1).2.1 = (cell12 strain stest2).2.1 ∧
     (cell12 strain stest1).2.1 = stdTransform (stdFit strain) strain ∧
     (cell12 strain stest1).2.2 = stdTransform (stdFit strain) stest1 ∧
     (cell12 strain stest2).2.2 = stdTransform (stdFit strain) stest2) ∧
    ((cell49 strain stest1).1 = (cell49 strain stest2).1 ∧
     (cell49 strain stest1).2.1 = (cell49 strain stest2).2.1 ∧
     (cell49 strain stest1).2.1 = stdTransform (stdFit strain) strain ∧
     (cell49 strain stest1).2.2 = stdTransform (stdFit strain) stest1 ∧
     (cell49 strain stest2).2.2 = stdTransform (stdFit strain) stest2) :=
  ⟨⟨rfl, rfl, rfl, rfl, rfl⟩, ⟨rfl, rfl, rfl, rfl, rfl⟩,
    ⟨rfl, rfl, rfl, rfl, rfl⟩⟩

theorem sum_map_affine (a b : ℝ) :
    ∀ (xs : List ℝ),
      (xs.map (fun x => a * x + b)).sum = a * xs.sum + b * (xs.length : ℝ) := by
  intro xs
  induction xs with
  | nil => simp
  | cons x t ih =>
    simp only [List.map_cons, List.sum_cons, ih, List.length_cons]
    push_cast
    ring

theorem meanR_affine (a b : ℝ) (xs : List ℝ) (hne : xs ≠ []) :
    meanR (xs.map (fun x => a * x + b)) = a * meanR xs + b := by
  have hn : (xs.length : ℝ) ≠ 0 := by
    have := List.length_pos.mpr hne
    exact_mod_cast Nat.pos_iff_ne_zero.mp this
  unfold meanR
  rw [List.length_map, sum_map_affine]
  field_simp

theorem varR_affine (a b : ℝ) (xs : List ℝ) (hne : xs ≠ []) :
    varR (xs.map (fun x => a * x + b)) = a ^ 2 * varR xs := by
  have hμ := meanR_affine a b xs hne
  unfold varR
  rw [hμ, List.map_map, List.length_map]
  have hfun : ((fun x => (x - (a * meanR xs + b)) ^ 2) ∘ fun x => a * x + b) =
      fun x => a ^ 2 * (x - meanR xs) ^ 2 := by
    funext x
    simp only [Function.comp_apply]
    ring
  rw [hfun, List.sum_map_mul_left, mul_div_assoc]

theorem stdTransform_affine (a b : ℝ) (xs : List ℝ) (ha : 0 < a)
    (hne : xs ≠ []) :
    stdTransform (stdFit (xs.map (fun x => a * x + b)))
        (xs.map (fun x => a * x + b)) =
      stdTransform (stdFit xs) xs := by
  unfold stdTransform stdFit stdScale
  rw [List.map_map]
  refine List.map_congr_left ?_
  intro x _
  simp only [Function.comp_apply]
  rw [meanR_affine a b xs hne, varR_affine a b xs hne,
    Real.sqrt_mul (sq_nonneg a), Real.sqrt_sq (le_of_lt ha)]
  have hnum : a * x + b - (a * meanR xs + b) = a * (x - meanR xs) := by ring
  rw [hnum, mul_div_mul_left _ _ (ne_of_gt ha)]

theorem sum_map_sub_const (c : ℝ) :
    ∀ (xs : List ℝ),
      (xs.map (fun x => x - c)).sum = xs.sum - c * (xs.length : ℝ) := by
  intro xs
  induction xs with
  | nil => simp
  | cons x t ih =>
    simp only [List.map_cons, List.sum_cons, ih, List.length_cons]
    push_cast
    ring

theorem sum_sub_meanR (xs : List ℝ) (hne : xs ≠ []) :
    (xs.map (fun x => x - meanR xs)).sum = 0 := by
  have hn : (xs.length : ℝ) ≠ 0 := by
    have := List.length_pos.mpr hne
    exact_mod_cast Nat.pos_iff_ne_zero.mp this
  rw [sum_map_sub_const, meanR]
  field_simp

theorem stdTransform_eq_map (xs : List ℝ) :
    stdTransform (stdFit xs) xs =
      xs.map (fun v => (v - meanR xs) * (Real.sqrt (varR xs))⁻¹) := by
  simp only [stdTransform, stdFit]
  refine List.map_congr_left ?_
  intro v _
  simp only [stdScale]
  rw [div_eq_mul_inv]

theorem meanR_std (xs : List ℝ) (hne : xs ≠ []) :
    meanR (stdTransform (stdFit xs) xs) = 0 := by
  rw [stdTransform_eq_map, meanR, List.length_map,
    List.sum_map_mul_right, sum_sub_meanR xs hne]
  simp

theorem varR_std (xs : List ℝ) (hne : xs ≠ []) (hv : 0 < varR xs) :
    varR (stdTransform (stdFit xs) xs) = 1 := by
  have hn : (xs.length : ℝ) ≠ 0 := by
    have := List.length_pos.mpr hne
    exact_mod_cast Nat.pos_iff_ne_zero.mp this
  have hμ := meanR_std xs hne
  have hsum : (xs.map (fun x => (x - meanR xs) ^ 2)).sum =
      varR xs * (xs.length : ℝ) := by
    rw [varR]
    field_simp
  rw [varR, hμ]
  simp only [sub_zero]
  rw [stdTransform_eq_map, List.map_map, List.length_map]
  have hfun : ((fun z => z ^ 2) ∘
        fun v => (v - meanR xs) * (Real.sqrt (varR xs))⁻¹) =
      fun v => (v - meanR xs) ^ 2 * (varR xs)⁻¹ := by
    funext v
    simp only [Function.comp_apply]
    rw [mul_pow, inv_pow, Real.sq_sqrt (le_of_lt hv)]
  rw [hfun, List.sum_map_mul_right, hsum]
  field_simp

theorem varR_pos (xs : List ℝ) (h : colMin xs < colMax xs) :
    0 < varR xs := by
  have hne : xs ≠ [] := by
    intro he
    rw [he] at h
    simp [colMin, colMax] at h
  have hnpos : (0 : ℝ) < (xs.length : ℝ) := by
    have := List.length_pos.mpr hne
    exact_mod_cast this
  have hterm : ∃ x ∈ xs, 0 < (x - meanR xs) ^ 2 := by
    by_cases hM : colMax xs = meanR xs
    · refine ⟨colMin xs, colMin_mem xs hne, ?_⟩
      have hx : colMin xs - meanR xs ≠ 0 := by
        rw [← hM]
        exact sub_ne_zero.mpr (ne_of_lt h)
      exact lt_of_le_of_ne (sq_nonneg _) (Ne.symm (pow_ne_zero 2 hx))
    · refine ⟨colMax xs, colMax_mem xs hne, ?_⟩
      have hx : colMax xs - meanR xs ≠ 0 := sub_ne_zero.mpr hM
      exact lt_of_le_of_ne (sq_nonneg _) (Ne.symm (pow_ne_zero 2 hx))
  rcases hterm with ⟨x, hx, hxpos⟩
  have hmem : (x - meanR xs) ^ 2 ∈ xs.map (fun v => (v - meanR xs) ^ 2) :=
    List.mem_map_of_mem _ hx
  have hle : (x - meanR xs) ^ 2 ≤ (xs.map (fun v => (v - meanR xs) ^ 2)).sum :=
    List.single_le_sum (fun w hw => by
      rcases List.mem_map.mp hw with ⟨v, _, rfl⟩
      exact sq_nonneg _) _ hmem
  exact div_pos (lt_of_lt_of_le hxpos hle) hnpos

theorem cell9TrainR_affine (xs : List ℝ) (h : colMin xs < colMax xs) :
    cell9TrainR xs =
      xs.map (fun x => (2 / (colMax xs - colMin xs)) * x +
        (-(2 * colMin xs / (colMax xs - colMin xs)) - 1)) := by
  have hden : colMax xs - colMin xs ≠ 0 := ne_of_gt (sub_pos.mpr h)
  unfold cell9TrainR
  refine List.map_congr_left ?_
  intro v _
  field_simp
  ring

/-- C9: standardization absorbs the preceding MinMax rescaling — on a
training column with max strictly above min, standardizing the
MinMax-rescaled column (cells 9 then 12) yields exactly the column
obtained by standardizing the raw data, and the standardized column
has mean 0 and variance 1. -/
theorem standardize_absorbs_minmax (xs : List ℝ)
    (h : colMin xs < colMax xs) :
    stdTransform (stdFit (cell9TrainR xs)) (cell9TrainR xs) =
      stdTransform (stdFit xs) xs ∧
    meanR (stdTransform (stdFit xs) xs) = 0 ∧
    varR (stdTransform (stdFit xs) xs) = 1 := by
  have hne : xs ≠ [] := by
    intro he
    rw [he] at h
    simp [colMin, colMax] at h
  have ha : 0 < 2 / (colMax xs - colMin xs) :=
    div_pos two_pos (sub_pos.mpr h)
  refine ⟨?_, meanR_std xs hne, varR_std xs hne (varR_pos xs h)⟩
  rw [cell9TrainR_affine xs h]
  exact stdTransform_affine _ _ xs ha hne

/-- Witness for standardize_absorbs_minmax at the column [0, 1]. -/
theorem standardize_absorbs_minmax_witness :
    colMin [(0 : ℝ), 1] < colMax [(0 : ℝ), 1] ∧
    (stdTransform (stdFit (cell9TrainR [(0 : ℝ), 1]))
        (cell9TrainR [(0 : ℝ), 1]) =
      stdTransform (stdFit [(0 : ℝ), 1]) [(0 : ℝ), 1] ∧
    meanR (stdTransform (stdFit [(0 : ℝ), 1]) [(0 : ℝ), 1]) = 0 ∧
    varR (stdTransform (stdFit [(0 : ℝ), 1]) [(0 : ℝ), 1]) = 1) := by
  have h01 : colMin [(0 : ℝ), 1] < colMax [(0 : ℝ), 1] := by
    show min (0 : ℝ) 1 < max (0 : ℝ) 1
    rw [min_eq_left zero_le_one, max_eq_right zero_le_one]
    exact zero_lt_one
  exact ⟨h01, standardize_absorbs_minmax [(0 : ℝ), 1] h01⟩

end Tutorial03
